import Mathlib

/-!
Verification of the batch SOL transfer pipeline (src/main.rs).

The development shallowly embeds the program: the remote RPC service, the
filesystem keypair store and the address parser are modelled as an explicit
environment record, async functions become pure functions of that
environment, and `futures::future::join_all` (which returns results in the
order of its input futures and completes only when all of them have
completed) becomes an order-preserving `List.map`.  The `f64` amount
arithmetic of line 33 of the source is modelled exactly: IEEE binary64
round-to-nearest-even over dyadic rationals for magnitudes in the normal
range, and the saturating `as u64` cast of Rust.
-/

/- ===================== IEEE binary64 model ===================== -/

/-- Round a rational to the nearest integer, ties to even, as IEEE
round-to-nearest-even does for the significand. -/
def rndNE (x : ℚ) : ℤ :=
  if x - (⌊x⌋ : ℚ) < 1/2 then ⌊x⌋
  else if (1 : ℚ)/2 < x - (⌊x⌋ : ℚ) then ⌊x⌋ + 1
  else if ⌊x⌋ % 2 = 0 then ⌊x⌋ else ⌊x⌋ + 1

/-- Integer power of two as a rational, for signed exponents. -/
def pow2 (e : ℤ) : ℚ :=
  if 0 ≤ e then ((2 : ℚ) ^ e.toNat) else 1 / ((2 : ℚ) ^ (-e).toNat)

/-- Fuelled search for the floor base-two logarithm of a rational that is
at least 1: counts how many times the value can be halved before dropping
below 2. -/
def ilogUp (fuel : ℕ) (q : ℚ) : ℤ :=
  if fuel = 0 then 0 else if q < 2 then 0 else ilogUp (fuel - 1) (q / 2) + 1
termination_by fuel
decreasing_by omega

/-- Fuelled search for the floor base-two logarithm of a positive rational
below 1: counts the doublings needed to reach 1. -/
def ilogDown (fuel : ℕ) (q : ℚ) : ℤ :=
  if fuel = 0 then 0 else if 1 ≤ q then 0 else ilogDown (fuel - 1) (q * 2) + 1
termination_by fuel
decreasing_by omega

/-- Floor base-two logarithm of a positive rational.  The fuel 1200 covers
every magnitude in the IEEE binary64 normal range (exponents -1022 to 1023)
with a wide margin. -/
def ilog2q (q : ℚ) : ℤ :=
  if 1 ≤ q then ilogUp 1200 q else -(ilogDown 1200 q)

/-- Round a positive rational to 53 significant bits, nearest, ties to
even: the binary64 rounding of a positive real in the normal range. -/
def roundF64pos (q : ℚ) : ℚ :=
  (rndNE (q * pow2 (52 - ilog2q q)) : ℚ) * pow2 (ilog2q q - 52)

/-- IEEE binary64 rounding of a rational (normal range; subnormal
underflow and overflow to infinity are not distinguished, which is
adequate for every value considered here). -/
def roundF64 (q : ℚ) : ℚ :=
  if q < 0 then -(roundF64pos (-q)) else if q = 0 then 0 else roundF64pos q

/-- Saturating float-to-u64 cast of Rust (`as u64`): truncation toward
zero, clamped to the representable range. -/
def f64_as_u64 (q : ℚ) : ℕ :=
  if q < 0 then 0 else min (⌊q⌋.toNat) (2 ^ 64 - 1)

/-- Line 33 of the source: `let lamports = (entry.amount_sol * 1_000_000_000.0) as u64`.
The argument is the binary64 value of the `amount_sol` field; the literal
1e9 is exactly representable, so the f64 product is the rounded rational
product. -/
def lamports_of (amount : ℚ) : ℕ := f64_as_u64 (roundF64 (amount * 1000000000))

/-- Binary64 value obtained by parsing the decimal literal n/d, as serde
does when reading `amount_sol` from the configuration file. -/
def f64ofDecimal (n d : ℕ) : ℚ := roundF64 ((n : ℚ) / (d : ℚ))

/-- Modelled from the spec: the exact scale-constant conversion demanded by
sections 4.1 and 9 of the specification (1 SOL = 10^9 lamports with no
floating-point intermediate).  The source does not contain this
computation; it is stated here only to compare the actual conversion
against it. -/
def exact_lamports (amount : ℚ) : ℚ := amount * 1000000000

/- ===================== data model and environment ===================== -/

/-- Ledger account identifier (opaque). -/
abbrev Pubkey := String

/-- Recent block hash handle (opaque). -/
abbrev Blockhash := String

/-- Signing credential; only its public key is observable in the source. -/
structure Keypair where
  pubkey : Pubkey
deriving DecidableEq, Repr

/-- One wallet entry of the configuration file (struct TransferEntry,
lines 19 to 24 of the source).  The `amount_sol` field is the binary64
value held by the parsed f64, modelled as a dyadic rational. -/
structure TransferEntry where
  from_keypair : String
  to_address : String
  amount_sol : ℚ
deriving DecidableEq, Repr

/-- One system transfer instruction (system_instruction::transfer at
line 36). -/
structure Instruction where
  source : Pubkey
  dest : Pubkey
  lamports : ℕ
deriving DecidableEq, Repr

/-- Signed transaction as built by Transaction::new_signed_with_payer at
lines 37 to 42. -/
structure Transaction where
  instructions : List Instruction
  payer : Option Pubkey
  signers : List Pubkey
  recent_blockhash : Blockhash
deriving DecidableEq, Repr

/-- Distinct per-item submission error kinds (section 4.1 of the spec);
in the source each arises from a distinct `?` early return inside
send_sol. -/
inductive SubmissionError where
  | credentialUnreadable
  | addressUnparseable
  | blockhashFetchFailed
  | remoteRejected
deriving DecidableEq, Repr

/-- One remote answer to get_signature_status_with_commitment (lines 50
to 53): the query itself may fail, the status may not be known yet, or a
terminal status is present carrying whether the transaction erred. -/
inductive StatusResp where
  | queryErr
  | notYet
  | final (hasErr : Bool)
deriving DecidableEq, Repr

/-- Environment: the behaviour of every external collaborator during one
run.  Keypair reads and address parsing are keyed by their string
argument; the per-invocation RPC answers (blockhash fetch, submission)
are keyed by the index of the batch item whose task performs the call,
and status queries are keyed by signature and attempt number. -/
structure Env where
  read_keypair : String → Option Keypair
  parse_address : String → Option Pubkey
  latest_blockhash : ℕ → Option Blockhash
  send_and_confirm : ℕ → Transaction → Option String
  status : String → ℕ → StatusResp

/- ===================== the program ===================== -/

/-- Function send_sol (lines 26 to 46): resolve the keypair, parse the
destination, convert the amount (line 33), fetch a blockhash, build and
sign the single-instruction transaction, submit it.  Every failing step
becomes a distinct per-item error value. -/
def send_sol (env : Env) (i : ℕ) (entry : TransferEntry) :
    Except SubmissionError String :=
  match env.read_keypair entry.from_keypair with
  | none => Except.error SubmissionError.credentialUnreadable
  | some fromKp =>
    match env.parse_address entry.to_address with
    | none => Except.error SubmissionError.addressUnparseable
    | some dst =>
      let lamports := lamports_of entry.amount_sol
      match env.latest_blockhash i with
      | none => Except.error SubmissionError.blockhashFetchFailed
      | some bh =>
        let ins : Instruction :=
          { source := fromKp.pubkey, dest := dst, lamports := lamports }
        let tx : Transaction :=
          { instructions := [ins], payer := some fromKp.pubkey,
            signers := [fromKp.pubkey], recent_blockhash := bh }
        match env.send_and_confirm i tx with
        | none => Except.error SubmissionError.remoteRejected
        | some sig => Except.ok sig

/-- Polling loop body of check_tx_status (lines 48 to 58), with the
remaining loop iterations as fuel and the current attempt index.  A
terminal status returns `err.is_none`; a failed query or an absent status
falls through to the 2 second sleep and the next attempt. -/
def checkLoop (st : ℕ → StatusResp) : ℕ → ℕ → Bool
  | _, 0 => false
  | i, fuel + 1 =>
    match st i with
    | StatusResp.final hasErr => !hasErr
    | StatusResp.notYet => checkLoop st (i + 1) fuel
    | StatusResp.queryErr => checkLoop st (i + 1) fuel

/-- Function check_tx_status: ten attempts starting at attempt 0. -/
def check_tx_status (st : ℕ → StatusResp) : Bool := checkLoop st 0 10

/-- Aggregate counts printed by the final summary block (lines 92 to 97).
The elapsed wall-clock duration is also printed there but is outside this
embedding. -/
structure Summary where
  successful : ℕ
  failed : ℕ
deriving DecidableEq, Repr

/-- Reporter (lines 92 and 93): count the true statuses, subtract for the
failed count. -/
def report (statuses : List Bool) : Summary :=
  let success_count := (statuses.filter (fun s => s)).length
  { successful := success_count, failed := statuses.length - success_count }

/-- Decidable equality for Except values, used to evaluate concrete runs. -/
instance instDecEqExcept {e a : Type} [DecidableEq e] [DecidableEq a] :
    DecidableEq (Except e a)
  | Except.ok x, Except.ok y =>
      if h : x = y then Decidable.isTrue (congrArg Except.ok h)
      else Decidable.isFalse (fun hc => h (Except.ok.inj hc))
  | Except.ok _, Except.error _ => Decidable.isFalse (fun hc => Except.noConfusion hc)
  | Except.error _, Except.ok _ => Decidable.isFalse (fun hc => Except.noConfusion hc)
  | Except.error x, Except.error y =>
      if h : x = y then Decidable.isTrue (congrArg Except.error h)
      else Decidable.isFalse (fun hc => h (Except.error.inj hc))

/-- Result of one whole run of main (lines 60 to 101): the per-item
submission results in input order (join_all at line 72), the collected
signatures of the successful submissions in that same order (lines 75 to
86), the confirmation statuses of the polled signatures (lines 89 and
90), and the printed summary. -/
structure PipelineRun where
  results : List (Except SubmissionError String)
  signatures : List String
  statuses : List Bool
  summary : Summary
deriving DecidableEq, Repr

/-- The two-phase pipeline of main: submit every wallet entry (phase 1,
all of them, no short circuit), collect the signatures of the `Ok`
results in order, poll exactly those (phase 2), then aggregate. -/
def pipeline (env : Env) (wallets : List TransferEntry) : PipelineRun :=
  let results := wallets.enum.map (fun p => send_sol env p.1 p.2)
  let signatures := results.filterMap Except.toOption
  let statuses := signatures.map (fun sig => check_tx_status (env.status sig))
  { results := results, signatures := signatures, statuses := statuses,
    summary := report statuses }

/-- True exactly on submission results that carry a signature. -/
def submissionSucceeded (r : Except SubmissionError String) : Bool :=
  match r with
  | Except.ok _ => true
  | Except.error _ => false

/- ===================== trace models ===================== -/

/-- Events of one polling loop: a status query with the answer it got, or
a sleep of the given number of seconds. -/
inductive PollEv where
  | query (resp : StatusResp)
  | wait (seconds : ℕ)
deriving DecidableEq, Repr

/-- Event trace of check_tx_status: every iteration queries once; a
terminal answer stops the loop, every other answer is followed by the
2 second sleep of line 55 (including after the final attempt, whose
trailing sleep precedes the loop exit). -/
def pollTraceLoop (st : ℕ → StatusResp) : ℕ → ℕ → List PollEv
  | _, 0 => []
  | i, fuel + 1 =>
    match st i with
    | StatusResp.final hasErr => [PollEv.query (StatusResp.final hasErr)]
    | StatusResp.notYet =>
        PollEv.query StatusResp.notYet :: PollEv.wait 2 :: pollTraceLoop st (i + 1) fuel
    | StatusResp.queryErr =>
        PollEv.query StatusResp.queryErr :: PollEv.wait 2 :: pollTraceLoop st (i + 1) fuel

/-- Event trace of one full check_tx_status call. -/
def pollTrace (st : ℕ → StatusResp) : List PollEv := pollTraceLoop st 0 10

/-- True exactly on query events. -/
def isQueryEv (e : PollEv) : Bool :=
  match e with
  | PollEv.query _ => true
  | PollEv.wait _ => false

/-- Shape of every polling trace: possibly empty; ends either with a
query that got a terminal answer or with a query followed by a trailing
sleep; every earlier query is non-terminal and separated from its
successor query by exactly one 2 second sleep. -/
inductive PollShape : List PollEv → Prop where
  | done : PollShape []
  | stop (r : StatusResp) : PollShape [PollEv.query r]
  | step (r : StatusResp) (tr : List PollEv) :
      PollShape tr → PollShape (PollEv.query r :: PollEv.wait 2 :: tr)

/-- Collapse a transient query failure into an absent status: both fall
through to the same sleep-and-retry branch of the loop. -/
def collapseTransient (r : StatusResp) : StatusResp :=
  match r with
  | StatusResp.queryErr => StatusResp.notYet
  | r => r

/-- Remote status reports are stable: once a terminal status is reported
for a signature it stays reported, with the same error flag, at every
later attempt.  This is how a real ledger behaves once a transaction is
final. -/
def StableStatus (st : ℕ → StatusResp) : Prop :=
  ∀ i b, st i = StatusResp.final b → ∀ j, i ≤ j → st j = StatusResp.final b

/-- Completion events of one run: a submission task finishing with its
outcome, or a poll task finishing for a signature with its confirmation
answer. -/
inductive RunEv where
  | submitted (i : ℕ) (outcome : Except SubmissionError String)
  | polled (sig : String) (confirmed : Bool)
deriving DecidableEq, Repr

/-- Observable completion trace of one run of main.  join_all imposes the
phase barrier: every submission completion precedes every poll
completion; within a phase the completion order is an arbitrary
interleaving, given by the index lists `ord1` and `ord2`. -/
def runTrace (env : Env) (ws : List TransferEntry) (ord1 ord2 : List ℕ) :
    List RunEv :=
  ord1.filterMap
    (fun i => ws[i]?.map (fun e => RunEv.submitted i (send_sol env i e)))
  ++ ord2.filterMap
    (fun j => (pipeline env ws).signatures[j]?.map
      (fun s => RunEv.polled s (check_tx_status (env.status s))))

/-- Per-item report: for every batch item, its submission outcome paired
with the confirmation status it got if (and only if) its submission
succeeded. -/
def itemReport (env : Env) (ws : List TransferEntry) :
    List (Except SubmissionError String × Option Bool) :=
  ws.enum.map (fun p =>
    let r := send_sol env p.1 p.2
    (r, r.toOption.map (fun s => check_tx_status (env.status s))))

/- ===================== concrete test fixtures ===================== -/

/-- Keypair of the concrete test environment. -/
def kp1 : Keypair := { pubkey := "pk1" }

/-- Concrete environment: one readable keypair at path key1, one parseable
address good, blockhashes and submissions always succeed (with a
signature determined by the item index), every status query reports a
clean terminal status. -/
def env0 : Env :=
  { read_keypair := fun p => if p = "key1" then some kp1 else none
  , parse_address := fun a => if a = "good" then some ("dst") else none
  , latest_blockhash := fun _ => some ("bh")
  , send_and_confirm := fun i _ => if i = 0 then some ("sigA") else some ("sigB")
  , status := fun _ _ => StatusResp.final false }

/-- Batch of two: the first item is valid, the second has an unreadable
credential. -/
def ws0 : List TransferEntry :=
  [ { from_keypair := "key1", to_address := "good", amount_sol := 1 }
  , { from_keypair := "missing", to_address := "good", amount_sol := 1 } ]

/-- Batch of two: the first item has an unparseable destination address,
the second is valid (scenario B of section 8 of the spec). -/
def ws4 : List TransferEntry :=
  [ { from_keypair := "key1", to_address := "bad", amount_sol := 1 }
  , { from_keypair := "key1", to_address := "good", amount_sol := 1 } ]

/-- Batch for the isolation claim: item 1 fails (unreadable credential),
items 0 and 2 are valid. -/
def ws6 : List TransferEntry :=
  [ { from_keypair := "key1", to_address := "good", amount_sol := 1 }
  , { from_keypair := "missing", to_address := "good", amount_sol := 1 }
  , { from_keypair := "key1", to_address := "good", amount_sol := 1 } ]

/-- Variant of ws6 differing only at item 1, which is valid here. -/
def ws6b : List TransferEntry :=
  [ { from_keypair := "key1", to_address := "good", amount_sol := 1 }
  , { from_keypair := "key1", to_address := "good", amount_sol := 1 }
  , { from_keypair := "key1", to_address := "good", amount_sol := 1 } ]

/-- Concrete status stream: not known for the first two attempts, then a
clean terminal status. -/
def stWit (i : ℕ) : StatusResp :=
  if i < 2 then StatusResp.notYet else StatusResp.final false

/-- Entry with a negative amount in an otherwise valid configuration. -/
def eNeg : TransferEntry :=
  { from_keypair := "key1", to_address := "good", amount_sol := -1 }

/- ===================== float model: evaluation lemmas ===================== -/

lemma pow2_pos (e : ℤ) : 0 < pow2 e := by
  unfold pow2
  split
  · positivity
  · positivity

lemma pow2_nonneg (e : ℤ) : 0 ≤ pow2 e := (pow2_pos e).le

lemma rndNE_nonneg {x : ℚ} (hx : 0 ≤ x) : 0 ≤ rndNE x := by
  unfold rndNE
  have hf : (0 : ℤ) ≤ ⌊x⌋ := Int.floor_nonneg.mpr hx
  split_ifs <;> omega

lemma rndNE_eq_of_mem {x : ℚ} {m : ℤ} (h1 : (m : ℚ) ≤ x) (h2 : x < (m : ℚ) + 1/2) :
    rndNE x = m := by
  have hf : ⌊x⌋ = m := by
    apply Int.floor_eq_iff.mpr
    constructor
    · exact h1
    · linarith
  unfold rndNE
  rw [hf]
  rw [if_pos (by linarith)]

lemma rndNE_eq_of_above {x : ℚ} {m : ℤ} (h1 : (m : ℚ) - 1/2 < x) (h2 : x < (m : ℚ)) :
    rndNE x = m := by
  have hf : ⌊x⌋ = m - 1 := by
    apply Int.floor_eq_iff.mpr
    constructor
    · push_cast
      linarith
    · push_cast
      linarith
  unfold rndNE
  rw [hf]
  have hc1 : ¬(x - ((m - 1 : ℤ) : ℚ) < 1/2) := by
    push_cast
    intro hcon
    linarith
  have hc2 : (1 : ℚ)/2 < x - ((m - 1 : ℤ) : ℚ) := by
    push_cast
    linarith
  rw [if_neg hc1, if_pos hc2]
  omega

lemma ilogUp_spec : ∀ (n fuel : ℕ) (q : ℚ), n < fuel →
    (2 : ℚ) ^ n ≤ q → q < (2 : ℚ) ^ (n + 1) → ilogUp fuel q = n := by
  intro n
  induction n with
  | zero =>
    intro fuel q hfuel h1 h2
    rw [ilogUp]
    have hne : fuel ≠ 0 := by omega
    simp only [hne, if_false]
    have : q < 2 := by simpa using h2
    simp [this]
  | succ n ih =>
    intro fuel q hfuel h1 h2
    rw [ilogUp]
    have hne : fuel ≠ 0 := by omega
    simp only [hne, if_false]
    have hq2 : ¬(q < 2) := by
      push_neg
      calc (2 : ℚ) = 2 ^ 1 := by norm_num
        _ ≤ 2 ^ (n + 1) := by
            apply pow_le_pow_right₀ (by norm_num)
            omega
        _ ≤ q := h1
    simp only [hq2, if_false]
    have hrec := ih (fuel - 1) (q / 2) (by omega)
      (by
        rw [le_div_iff₀ (by norm_num)]
        rw [← pow_succ]
        exact h1)
      (by
        rw [div_lt_iff₀ (by norm_num)]
        rw [← pow_succ]
        exact h2)
    rw [hrec]
    push_cast
    ring

lemma ilogDown_spec : ∀ (k fuel : ℕ) (q : ℚ), k < fuel →
    1 / (2 : ℚ) ^ k ≤ q → q < 2 / (2 : ℚ) ^ k → ilogDown fuel q = k := by
  intro k
  induction k with
  | zero =>
    intro fuel q hfuel h1 h2
    rw [ilogDown]
    have hne : fuel ≠ 0 := by omega
    simp only [hne, if_false]
    have : (1 : ℚ) ≤ q := by simpa using h1
    simp [this]
  | succ k ih =>
    intro fuel q hfuel h1 h2
    rw [ilogDown]
    have hne : fuel ≠ 0 := by omega
    simp only [hne, if_false]
    have h2pos : (0 : ℚ) < (2 : ℚ) ^ k := by positivity
    have hq1 : ¬((1 : ℚ) ≤ q) := by
      push_neg
      calc q < 2 / (2 : ℚ) ^ (k + 1) := h2
        _ ≤ 1 := by
            rw [div_le_one (by positivity)]
            calc (2 : ℚ) = 2 ^ 1 := by norm_num
              _ ≤ 2 ^ (k + 1) := by
                  apply pow_le_pow_right₀ (by norm_num)
                  omega
    simp only [hq1, if_false]
    have hrec := ih (fuel - 1) (q * 2) (by omega)
      (by
        have hh := mul_le_mul_of_nonneg_right h1 (by norm_num : (0 : ℚ) ≤ 2)
        rw [pow_succ] at hh
        calc 1 / (2 : ℚ) ^ k = 1 / ((2 : ℚ) ^ k * 2) * 2 := by field_simp
          _ ≤ q * 2 := hh)
      (by
        have hh := mul_lt_mul_of_pos_right h2 (by norm_num : (0 : ℚ) < 2)
        rw [pow_succ] at hh
        calc q * 2 < 2 / ((2 : ℚ) ^ k * 2) * 2 := hh
          _ = 2 / (2 : ℚ) ^ k := by field_simp; ring)
    rw [hrec]
    push_cast
    ring

lemma pow2_ofNat (n : ℕ) : pow2 (n : ℤ) = (2 : ℚ) ^ n := by
  unfold pow2
  simp

lemma pow2_negOfNat (n : ℕ) : pow2 (-(n : ℤ)) = 1 / (2 : ℚ) ^ n := by
  unfold pow2
  rcases Nat.eq_zero_or_pos n with h | h
  · subst h
    norm_num
  · have hneg : ¬((0 : ℤ) ≤ -(n : ℤ)) := by omega
    rw [if_neg hneg]
    simp

lemma ilog2q_spec {q : ℚ} {e : ℤ} (hlo : -1200 < e) (hhi : e < 1200)
    (h1 : pow2 e ≤ q) (h2 : q < pow2 (e + 1)) : ilog2q q = e := by
  unfold ilog2q
  rcases le_or_lt 0 e with he | he
  · obtain ⟨n, rfl⟩ : ∃ n : ℕ, e = (n : ℤ) := ⟨e.toNat, (Int.toNat_of_nonneg he).symm⟩
    rw [pow2_ofNat] at h1
    have hq1 : (1 : ℚ) ≤ q := by
      calc (1 : ℚ) ≤ 2 ^ n := one_le_pow₀ (by norm_num)
      _ ≤ q := h1
    rw [if_pos hq1]
    rw [ilogUp_spec n 1200 q (by omega) h1]
    have hcast : ((n : ℤ) + 1) = ((n + 1 : ℕ) : ℤ) := by push_cast; ring
    rw [hcast, pow2_ofNat] at h2
    exact h2
  · obtain ⟨k, hk⟩ : ∃ k : ℕ, e = -(k : ℤ) := ⟨(-e).toNat, by omega⟩
    subst hk
    have hkpos : 0 < k := by omega
    have hk1 : (-(k : ℤ) + 1) = -((k - 1 : ℕ) : ℤ) := by omega
    rw [pow2_negOfNat] at h1
    rw [hk1, pow2_negOfNat] at h2
    have hhalf : (1 : ℚ) / (2 : ℚ) ^ (k - 1) = 2 / (2 : ℚ) ^ k := by
      have hsucc : (2 : ℚ) ^ k = (2 : ℚ) ^ (k - 1) * 2 := by
        rw [← pow_succ]
        congr 1
        omega
      rw [hsucc]
      field_simp
    have hq1 : ¬((1 : ℚ) ≤ q) := by
      push_neg
      calc q < 1 / (2 : ℚ) ^ (k - 1) := h2
        _ ≤ 1 := by
            rw [div_le_one (by positivity)]
            exact one_le_pow₀ (by norm_num)
    rw [if_neg hq1]
    rw [ilogDown_spec k 1200 q (by omega) h1 (by rw [← hhalf]; exact h2)]

lemma roundF64_eval {q : ℚ} {e m : ℤ} (hlo : -1200 < e) (hhi : e < 1200)
    (hq1 : pow2 e ≤ q) (hq2 : q < pow2 (e + 1))
    (hm1 : (m : ℚ) ≤ q * pow2 (52 - e)) (hm2 : q * pow2 (52 - e) < (m : ℚ) + 1/2) :
    roundF64 q = (m : ℚ) * pow2 (e - 52) := by
  have hqpos : 0 < q := lt_of_lt_of_le (pow2_pos e) hq1
  unfold roundF64
  rw [if_neg (by linarith), if_neg (by linarith)]
  unfold roundF64pos
  rw [ilog2q_spec hlo hhi hq1 hq2]
  rw [rndNE_eq_of_mem hm1 hm2]

lemma roundF64_eval_above {q : ℚ} {e m : ℤ} (hlo : -1200 < e) (hhi : e < 1200)
    (hq1 : pow2 e ≤ q) (hq2 : q < pow2 (e + 1))
    (hm1 : (m : ℚ) - 1/2 < q * pow2 (52 - e)) (hm2 : q * pow2 (52 - e) < (m : ℚ)) :
    roundF64 q = (m : ℚ) * pow2 (e - 52) := by
  have hqpos : 0 < q := lt_of_lt_of_le (pow2_pos e) hq1
  unfold roundF64
  rw [if_neg (by linarith), if_neg (by linarith)]
  unfold roundF64pos
  rw [ilog2q_spec hlo hhi hq1 hq2]
  rw [rndNE_eq_of_above hm1 hm2]

/- ===================== cast and sign lemmas ===================== -/

lemma roundF64pos_nonneg {q : ℚ} (h : 0 ≤ q) : 0 ≤ roundF64pos q := by
  unfold roundF64pos
  apply mul_nonneg
  · exact_mod_cast rndNE_nonneg (mul_nonneg h (pow2_nonneg _))
  · exact pow2_nonneg _

lemma roundF64_nonpos {q : ℚ} (h : q < 0) : roundF64 q ≤ 0 := by
  unfold roundF64
  rw [if_pos h]
  have := @roundF64pos_nonneg (-q) (by linarith)
  linarith

lemma f64_as_u64_of_nonpos {q : ℚ} (h : q ≤ 0) : f64_as_u64 q = 0 := by
  unfold f64_as_u64
  split_ifs with h1
  · rfl
  · have hq : q = 0 := le_antisymm h (not_lt.mp h1)
    subst hq
    simp

lemma f64_as_u64_saturates {q : ℚ} (h : (2 ^ 64 - 1 : ℚ) ≤ q) :
    f64_as_u64 q = 2 ^ 64 - 1 := by
  unfold f64_as_u64
  have hq0 : ¬(q < 0) := by
    push_neg
    calc (0 : ℚ) ≤ 2 ^ 64 - 1 := by norm_num
      _ ≤ q := h
  rw [if_neg hq0]
  have hfl : (2 ^ 64 - 1 : ℤ) ≤ ⌊q⌋ := by
    apply Int.le_floor.mpr
    push_cast
    norm_num at h ⊢
    exact h
  have h2 : (2 ^ 64 - 1 : ℕ) ≤ ⌊q⌋.toNat := by omega
  exact Nat.min_eq_right h2

lemma lamports_of_neg {a : ℚ} (h : a < 0) : lamports_of a = 0 := by
  unfold lamports_of
  apply f64_as_u64_of_nonpos
  apply roundF64_nonpos
  nlinarith

/- ===================== concrete binary64 evaluations ===================== -/

lemma roundF64_201_100 : roundF64 ((201 : ℚ)/100) = 4526117625507348 / 2 ^ 51 := by
  have h := @roundF64_eval ((201 : ℚ)/100) 1 4526117625507348
    (by norm_num) (by norm_num)
    (by rw [(by norm_num : (1 : ℤ) = ((1 : ℕ) : ℤ)), pow2_ofNat]; norm_num)
    (by rw [(by norm_num : (1 : ℤ) + 1 = ((2 : ℕ) : ℤ)), pow2_ofNat]; norm_num)
    (by rw [(by norm_num : (52 : ℤ) - 1 = ((51 : ℕ) : ℤ)), pow2_ofNat]; norm_num)
    (by rw [(by norm_num : (52 : ℤ) - 1 = ((51 : ℕ) : ℤ)), pow2_ofNat]; norm_num)
  rw [h]
  rw [(by norm_num : (1 : ℤ) - 52 = -((51 : ℕ) : ℤ)), pow2_negOfNat]
  norm_num

lemma f64ofDecimal_201_100 : f64ofDecimal 201 100 = 4526117625507348 / 2 ^ 51 := by
  unfold f64ofDecimal
  rw [(by norm_num : ((201 : ℕ) : ℚ) / ((100 : ℕ) : ℚ) = (201 : ℚ)/100)]
  exact roundF64_201_100

lemma roundF64_prod_201 :
    roundF64 ((4526117625507348 / 2 ^ 51 : ℚ) * 1000000000) =
      8430551039999999 / 2 ^ 22 := by
  have h := @roundF64_eval ((4526117625507348 / 2 ^ 51 : ℚ) * 1000000000)
    30 8430551039999999
    (by norm_num) (by norm_num)
    (by rw [(by norm_num : (30 : ℤ) = ((30 : ℕ) : ℤ)), pow2_ofNat]; norm_num)
    (by rw [(by norm_num : (30 : ℤ) + 1 = ((31 : ℕ) : ℤ)), pow2_ofNat]; norm_num)
    (by rw [(by norm_num : (52 : ℤ) - 30 = ((22 : ℕ) : ℤ)), pow2_ofNat]; norm_num)
    (by rw [(by norm_num : (52 : ℤ) - 30 = ((22 : ℕ) : ℤ)), pow2_ofNat]; norm_num)
  rw [h]
  rw [(by norm_num : (30 : ℤ) - 52 = -((22 : ℕ) : ℤ)), pow2_negOfNat]
  norm_num

lemma f64_as_u64_prod_201 :
    f64_as_u64 (8430551039999999 / 2 ^ 22 : ℚ) = 2009999999 := by
  unfold f64_as_u64
  rw [if_neg (by norm_num)]
  have hfl : ⌊(8430551039999999 / 2 ^ 22 : ℚ)⌋ = 2009999999 := by
    apply Int.floor_eq_iff.mpr
    constructor
    · push_cast
      norm_num
    · push_cast
      norm_num
  rw [hfl]
  have htn : (2009999999 : ℤ).toNat = 2009999999 := rfl
  rw [htn]
  norm_num

lemma lamports_of_2_01 : lamports_of (f64ofDecimal 201 100) = 2009999999 := by
  unfold lamports_of
  rw [f64ofDecimal_201_100, roundF64_prod_201]
  exact f64_as_u64_prod_201

/- ===================== polling loop lemmas ===================== -/

lemma checkLoop_true_iff {st : ℕ → StatusResp} (hst : StableStatus st) :
    ∀ (fuel k : ℕ), (checkLoop st k fuel = true ↔
      ∃ i, k ≤ i ∧ i < k + fuel ∧ st i = StatusResp.final false) := by
  intro fuel
  induction fuel with
  | zero =>
    intro k
    simp only [checkLoop]
    constructor
    · intro h
      cases h
    · rintro ⟨i, h1, h2, _⟩
      omega
  | succ fuel ih =>
    intro k
    cases h : st k with
    | final b =>
      have hstep : checkLoop st k (fuel + 1) = !b := by
        simp [checkLoop, h]
      rw [hstep]
      cases b with
      | false =>
        simp only [Bool.not_false]
        constructor
        · intro _
          exact ⟨k, le_refl k, by omega, h⟩
        · intro _
          trivial
      | true =>
        simp only [Bool.not_true]
        constructor
        · intro hcon
          cases hcon
        · rintro ⟨i, hki, _, hfi⟩
          have := hst k true h i hki
          rw [this] at hfi
          cases hfi
    | notYet =>
      have hstep : checkLoop st k (fuel + 1) = checkLoop st (k + 1) fuel := by
        simp [checkLoop, h]
      rw [hstep, ih (k + 1)]
      constructor
      · rintro ⟨i, h1, h2, h3⟩
        exact ⟨i, by omega, by omega, h3⟩
      · rintro ⟨i, h1, h2, h3⟩
        rcases Nat.eq_or_lt_of_le h1 with rfl | hlt
        · rw [h] at h3
          cases h3
        · exact ⟨i, by omega, by omega, h3⟩
    | queryErr =>
      have hstep : checkLoop st k (fuel + 1) = checkLoop st (k + 1) fuel := by
        simp [checkLoop, h]
      rw [hstep, ih (k + 1)]
      constructor
      · rintro ⟨i, h1, h2, h3⟩
        exact ⟨i, by omega, by omega, h3⟩
      · rintro ⟨i, h1, h2, h3⟩
        rcases Nat.eq_or_lt_of_le h1 with rfl | hlt
        · rw [h] at h3
          cases h3
        · exact ⟨i, by omega, by omega, h3⟩

lemma checkLoop_collapse (st : ℕ → StatusResp) :
    ∀ (fuel k : ℕ),
      checkLoop (fun i => collapseTransient (st i)) k fuel = checkLoop st k fuel := by
  intro fuel
  induction fuel with
  | zero =>
    intro k
    rfl
  | succ fuel ih =>
    intro k
    cases h : st k with
    | final b =>
      simp only [checkLoop, h]
      rfl
    | notYet =>
      simp only [checkLoop, h]
      exact ih (k + 1)
    | queryErr =>
      simp only [checkLoop, h]
      exact ih (k + 1)

lemma pollTraceLoop_shape (st : ℕ → StatusResp) :
    ∀ (fuel k : ℕ), PollShape (pollTraceLoop st k fuel) := by
  intro fuel
  induction fuel with
  | zero =>
    intro k
    exact PollShape.done
  | succ fuel ih =>
    intro k
    cases h : st k with
    | final b =>
      simp only [pollTraceLoop, h]
      exact PollShape.stop _
    | notYet =>
      simp only [pollTraceLoop, h]
      exact PollShape.step _ _ (ih (k + 1))
    | queryErr =>
      simp only [pollTraceLoop, h]
      exact PollShape.step _ _ (ih (k + 1))

lemma pollTraceLoop_countP_le (st : ℕ → StatusResp) :
    ∀ (fuel k : ℕ), (pollTraceLoop st k fuel).countP isQueryEv ≤ fuel := by
  intro fuel
  induction fuel with
  | zero =>
    intro k
    simp [pollTraceLoop]
  | succ fuel ih =>
    intro k
    cases h : st k with
    | final b =>
      simp [pollTraceLoop, h, List.countP_cons, isQueryEv]
    | notYet =>
      have := ih (k + 1)
      simp [pollTraceLoop, h, List.countP_cons, isQueryEv]
      omega
    | queryErr =>
      have := ih (k + 1)
      simp [pollTraceLoop, h, List.countP_cons, isQueryEv]
      omega

lemma pollShape_head {tr : List PollEv} (h : PollShape tr) :
    ∀ b, tr[0]? = some b → ∃ r, b = PollEv.query r := by
  induction h with
  | done =>
    intro b hb
    cases hb
  | stop r =>
    intro b hb
    simp at hb
    exact ⟨r, hb.symm⟩
  | step r tr htr ih =>
    intro b hb
    simp at hb
    exact ⟨r, hb.symm⟩

lemma pollShape_wait_two {tr : List PollEv} (h : PollShape tr) :
    ∀ (n s : ℕ), tr[n]? = some (PollEv.wait s) → s = 2 := by
  induction h with
  | done =>
    intro n s hn
    cases hn
  | stop r =>
    intro n s hn
    cases n with
    | zero => simp at hn
    | succ n => simp at hn
  | step r tr htr ih =>
    intro n s hn
    cases n with
    | zero => simp at hn
    | succ n =>
      cases n with
      | zero =>
        simp at hn
        omega
      | succ n =>
        simp only [List.getElem?_cons_succ] at hn
        exact ih n s hn

lemma pollShape_no_adjacent_queries {tr : List PollEv} (h : PollShape tr) :
    ∀ (n : ℕ) (r r2 : StatusResp), tr[n]? = some (PollEv.query r) →
      tr[n + 1]? = some (PollEv.query r2) → False := by
  induction h with
  | done =>
    intro n r r2 h1 h2
    cases h1
  | stop r0 =>
    intro n r r2 h1 h2
    cases n with
    | zero => simp at h2
    | succ n => simp at h1
  | step r0 tr htr ih =>
    intro n r r2 h1 h2
    cases n with
    | zero => simp at h2
    | succ n =>
      cases n with
      | zero => simp at h1
      | succ n =>
        simp only [List.getElem?_cons_succ] at h1 h2
        exact ih n r r2 h1 h2

lemma pollShape_wait_then_query {tr : List PollEv} (h : PollShape tr) :
    ∀ (n s : ℕ) (b : PollEv), tr[n]? = some (PollEv.wait s) → tr[n + 1]? = some b →
      ∃ r, b = PollEv.query r := by
  induction h with
  | done =>
    intro n s b h1 h2
    cases h1
  | stop r0 =>
    intro n s b h1 h2
    cases n with
    | zero => simp at h1
    | succ n => simp at h1
  | step r0 tr htr ih =>
    intro n s b h1 h2
    cases n with
    | zero => simp at h1
    | succ n =>
      cases n with
      | zero =>
        simp only [List.getElem?_cons_succ, List.getElem?_cons_zero] at h2
        exact pollShape_head htr b h2
      | succ n =>
        simp only [List.getElem?_cons_succ] at h1 h2
        exact ih n s b h1 h2

/- ===================== list helper lemmas ===================== -/

lemma length_filterMap_eq_countP {α β : Type} (f : α → Option β) (l : List α) :
    (l.filterMap f).length = l.countP (fun a => (f a).isSome) := by
  induction l with
  | nil => rfl
  | cons a t ih =>
    cases h : f a with
    | none => simp [List.filterMap_cons, h, List.countP_cons, ih]
    | some b => simp [List.filterMap_cons, h, List.countP_cons, ih]

lemma ok_mem_of_mem_filterMap_toOption {l : List (Except SubmissionError String)}
    {s : String} (h : s ∈ l.filterMap Except.toOption) : Except.ok s ∈ l := by
  rcases List.mem_filterMap.mp h with ⟨r, hr, he⟩
  cases r with
  | ok a =>
    have : a = s := by
      simpa [Except.toOption] using he
    subst this
    exact hr
  | error e =>
    simp [Except.toOption] at he

lemma map_ok_filterMap_sublist (l : List (Except SubmissionError String)) :
    ((l.filterMap Except.toOption).map Except.ok).Sublist l := by
  induction l with
  | nil => simp
  | cons r t ih =>
    cases r with
    | ok a =>
      simp only [List.filterMap_cons, Except.toOption, List.map_cons]
      exact List.Sublist.cons₂ _ ih
    | error e =>
      simp only [List.filterMap_cons, Except.toOption]
      exact List.Sublist.cons _ ih

/- ===================== pipeline characterization lemmas ===================== -/

lemma pipeline_results_def (env : Env) (ws : List TransferEntry) :
    (pipeline env ws).results = ws.enum.map (fun p => send_sol env p.1 p.2) := rfl

lemma pipeline_signatures_def (env : Env) (ws : List TransferEntry) :
    (pipeline env ws).signatures = (pipeline env ws).results.filterMap Except.toOption := rfl

lemma pipeline_statuses_def (env : Env) (ws : List TransferEntry) :
    (pipeline env ws).statuses =
      (pipeline env ws).signatures.map (fun sig => check_tx_status (env.status sig)) := rfl

lemma pipeline_summary_def (env : Env) (ws : List TransferEntry) :
    (pipeline env ws).summary = report (pipeline env ws).statuses := rfl

lemma pipeline_results_getElem? (env : Env) (ws : List TransferEntry) (i : ℕ) :
    (pipeline env ws).results[i]? = ws[i]?.map (fun e => send_sol env i e) := by
  rw [pipeline_results_def, List.getElem?_map, List.getElem?_enum]
  cases ws[i]? with
  | none => rfl
  | some e => rfl

lemma pipeline_statuses_getElem? (env : Env) (ws : List TransferEntry) (j : ℕ) :
    (pipeline env ws).statuses[j]? =
      (pipeline env ws).signatures[j]?.map (fun s => check_tx_status (env.status s)) := by
  rw [pipeline_statuses_def, List.getElem?_map]

lemma pipeline_results_itemReport (env : Env) (ws : List TransferEntry) :
    (pipeline env ws).results = (itemReport env ws).map Prod.fst := by
  rw [pipeline_results_def]
  unfold itemReport
  rw [List.map_map]
  rfl

lemma pipeline_statuses_itemReport (env : Env) (ws : List TransferEntry) :
    (pipeline env ws).statuses = (itemReport env ws).filterMap Prod.snd := by
  rw [pipeline_statuses_def, pipeline_signatures_def, pipeline_results_def]
  rw [List.filterMap_map, List.map_filterMap]
  unfold itemReport
  rw [List.filterMap_map]
  rfl

lemma itemReport_getElem? (env : Env) (ws : List TransferEntry) (j : ℕ) :
    (itemReport env ws)[j]? = ws[j]?.map (fun e =>
      (send_sol env j e,
        (send_sol env j e).toOption.map (fun s => check_tx_status (env.status s)))) := by
  unfold itemReport
  rw [List.getElem?_map, List.getElem?_enum]
  cases ws[j]? with
  | none => rfl
  | some e => rfl

lemma itemReport_length (env : Env) (ws : List TransferEntry) :
    (itemReport env ws).length = ws.length := by
  unfold itemReport
  rw [List.length_map, List.enum_length]

/- ===================== reporter lemmas ===================== -/

lemma report_successful (l : List Bool) :
    (report l).successful = l.countP (fun b => b) := by
  simp [report, List.countP_eq_length_filter]

lemma countP_not_bool (l : List Bool) :
    l.countP (fun b => !b) = l.length - l.countP (fun b => b) := by
  induction l with
  | nil => rfl
  | cons b t ih =>
    have hle := @List.countP_le_length Bool (fun b : Bool => b) t
    cases b with
    | false =>
      simp [List.countP_cons, ih]
      try omega
    | true =>
      simp [List.countP_cons, ih]
      try omega

lemma report_failed (l : List Bool) :
    (report l).failed = l.countP (fun b => !b) := by
  rw [countP_not_bool]
  simp [report, List.countP_eq_length_filter]

/- ===================== ordering helper ===================== -/

lemma append_all_before {α : Type} (A B : List α) (pA pB : α → Prop)
    (hA : ∀ x ∈ A, pA x) (hB : ∀ x ∈ B, pB x)
    (hdisj : ∀ x, pA x → pB x → False) :
    ∀ (m n : ℕ) (x y : α), (A ++ B)[m]? = some x → pB x →
      (A ++ B)[n]? = some y → pA y → n < m := by
  intro m n x y hm hx hn hy
  have hmge : A.length ≤ m := by
    by_contra hcon
    push_neg at hcon
    rw [List.getElem?_append_left hcon] at hm
    exact hdisj x (hA x (List.getElem?_mem hm)) hx
  have hnlt : n < A.length := by
    by_contra hcon
    push_neg at hcon
    rw [List.getElem?_append_right hcon] at hn
    exact hdisj y hy (hB y (List.getElem?_mem hn))
  omega

/- ===================== claim theorems ===================== -/

/-- Claim C1: every batch of N requests produces exactly N submission
outcomes, the number of poll invocations equals the number of successful
submission outcomes (and equals the number of collected signatures), and
every polled signature stems from a successful submission, so a request
whose submission failed is never polled. -/
theorem batch_outcome_poll_counts (env : Env) (ws : List TransferEntry) :
    (pipeline env ws).results.length = ws.length
    ∧ (pipeline env ws).statuses.length = (pipeline env ws).results.countP submissionSucceeded
    ∧ (pipeline env ws).statuses.length = (pipeline env ws).signatures.length
    ∧ (∀ s : String, s ∈ (pipeline env ws).signatures →
        Except.ok s ∈ (pipeline env ws).results) := by
  refine ⟨?_, ?_, ?_, ?_⟩
  · rw [pipeline_results_def, List.length_map, List.enum_length]
  · rw [pipeline_statuses_def, List.length_map, pipeline_signatures_def,
      length_filterMap_eq_countP]
    have hfun : (fun r : Except SubmissionError String => (Except.toOption r).isSome)
        = submissionSucceeded := by
      funext r
      cases r with
      | ok a => rfl
      | error e => rfl
    rw [hfun]
  · rw [pipeline_statuses_def, List.length_map]
  · intro s hs
    rw [pipeline_signatures_def] at hs
    exact ok_mem_of_mem_filterMap_toOption hs

theorem batch_outcome_poll_counts_witness :
    "sigA" ∈ (pipeline env0 ws0).signatures
    ∧ Except.ok ("sigA") ∈ (pipeline env0 ws0).results :=
  ⟨by decide, (batch_outcome_poll_counts env0 ws0).2.2.2 "sigA" (by decide)⟩

/-- Claim C2: for a stable remote, the poller confirms a transaction
exactly when some attempt within the ten-attempt budget sees a terminal
status with no error; a terminal status with an error, or no terminal
status within the budget, yields an unconfirmed outcome. -/
theorem poller_confirmed_iff_clean_terminal (st : ℕ → StatusResp)
    (hst : StableStatus st) :
    (check_tx_status st = true ↔ ∃ i, i < 10 ∧ st i = StatusResp.final false)
    ∧ (∀ i, i < 10 → st i = StatusResp.final true → check_tx_status st = false) := by
  have hiff := checkLoop_true_iff hst 10 0
  have hmain : check_tx_status st = true ↔
      ∃ i, i < 10 ∧ st i = StatusResp.final false := by
    unfold check_tx_status
    rw [hiff]
    constructor
    · rintro ⟨i, _, h2, h3⟩
      exact ⟨i, by omega, h3⟩
    · rintro ⟨i, h1, h3⟩
      exact ⟨i, by omega, by omega, h3⟩
  refine ⟨hmain, ?_⟩
  intro i hi hfi
  cases hcheck : check_tx_status st with
  | false => rfl
  | true =>
    obtain ⟨j, hj, hjf⟩ := hmain.mp hcheck
    rcases le_or_lt i j with hij | hij
    · have hj2 := hst i true hfi j hij
      rw [hj2] at hjf
      cases hjf
    · have hi2 := hst j false hjf i (by omega)
      rw [hi2] at hfi
      cases hfi

theorem poller_confirmed_witness :
    StableStatus stWit ∧ check_tx_status stWit = true := by
  have hst : StableStatus stWit := by
    intro i b hib j hij
    have hi2 : ¬ i < 2 := by
      intro hlt
      rw [stWit, if_pos hlt] at hib
      cases hib
    rw [stWit, if_neg hi2] at hib
    rw [stWit, if_neg (by omega)]
    exact hib
  exact ⟨hst,
    (poller_confirmed_iff_clean_terminal stWit hst).1.mpr ⟨2, by omega, by decide⟩⟩

/-- Claim C3: the amount conversion of line 33 is a floating-point
multiply-and-truncate, not the exact scale multiplication the spec
demands.  At the configured amount 2.01 SOL the code computes 2009999999
lamports while the exact conversion gives 2010000000: one lamport is
silently lost, so the conversion does not equal amount times ten to the
ninth for every representable non-negative amount. -/
theorem lamports_conversion_drifts :
    lamports_of (f64ofDecimal 201 100) = 2009999999
    ∧ exact_lamports ((201 : ℚ)/100) = 2010000000
    ∧ (2009999999 : ℕ) ≠ 2010000000 := by
  refine ⟨lamports_of_2_01, ?_, by norm_num⟩
  unfold exact_lamports
  norm_num

/-- Claim C4, counterexample: for the batch ws4 (one unparseable
destination, one valid entry that confirms), one submission fails, yet
the printed summary reports failed = 0 (and successful = 1): the summary
counts confirmation outcomes of polled transactions only and does not
report the failed-submission count. -/
theorem summary_omits_failed_submissions :
    (pipeline env0 ws4).results.countP (fun r => !(submissionSucceeded r)) = 1
    ∧ (pipeline env0 ws4).summary.successful = 1
    ∧ (pipeline env0 ws4).summary.failed = 0
    ∧ (pipeline env0 ws4).summary.failed ≠ 1 :=
  ⟨by decide, by decide, by decide, by decide⟩

/-- Claim C4, amended: the summary block reports the confirmed count and
the unconfirmed count among the polled transactions (so their sum is the
number of polled transactions, not the batch size); failed submissions
appear only as per-item lines, not in the summary counts. -/
theorem summary_counts_polled_only (env : Env) (ws : List TransferEntry) :
    (pipeline env ws).summary.successful = (pipeline env ws).statuses.countP (fun b => b)
    ∧ (pipeline env ws).summary.failed = (pipeline env ws).statuses.countP (fun b => !b)
    ∧ (pipeline env ws).summary.successful + (pipeline env ws).summary.failed
        = (pipeline env ws).statuses.length := by
  rw [pipeline_summary_def]
  refine ⟨report_successful _, report_failed _, ?_⟩
  rw [report_successful, report_failed, countP_not_bool]
  have hle := @List.countP_le_length Bool (fun b : Bool => b) (pipeline env ws).statuses
  omega

/-- Claim C5: polling for one signature performs at most ten status
queries; the trace alternates queries with sleeps so consecutive queries
are separated by exactly one sleep of exactly 2 seconds; a transient
query failure is indistinguishable from an absent status (retried locally,
never surfaced); and the loop is a total function that stops after its
budget. -/
theorem poll_budget_and_interval (st : ℕ → StatusResp) :
    (pollTrace st).countP isQueryEv ≤ 10
    ∧ PollShape (pollTrace st)
    ∧ (∀ (n s : ℕ), (pollTrace st)[n]? = some (PollEv.wait s) → s = 2)
    ∧ (∀ (n : ℕ) (r r2 : StatusResp), (pollTrace st)[n]? = some (PollEv.query r) →
        (pollTrace st)[n + 1]? = some (PollEv.query r2) → False)
    ∧ (∀ (n s : ℕ) (b : PollEv), (pollTrace st)[n]? = some (PollEv.wait s) →
        (pollTrace st)[n + 1]? = some b → ∃ r, b = PollEv.query r)
    ∧ check_tx_status (fun i => collapseTransient (st i)) = check_tx_status st := by
  have hshape := pollTraceLoop_shape st 10 0
  exact ⟨pollTraceLoop_countP_le st 10 0, hshape,
    pollShape_wait_two hshape, pollShape_no_adjacent_queries hshape,
    pollShape_wait_then_query hshape, checkLoop_collapse st 10 0⟩

theorem poll_budget_and_interval_witness :
    (pollTrace stWit)[1]? = some (PollEv.wait 2)
    ∧ (pollTrace stWit)[2]? = some (PollEv.query StatusResp.notYet)
    ∧ (∃ r, PollEv.query StatusResp.notYet = PollEv.query r) :=
  ⟨by decide, by decide,
    (poll_budget_and_interval stWit).2.2.2.2.1 1 2 (PollEv.query StatusResp.notYet)
      (by decide) (by decide)⟩

/-- Claim C6: a per-item failure is converted into that item outcome and
cannot affect any sibling: two batches that agree everywhere except item
k produce identical per-item reports at every other index, and the
pipeline output (submission results and poll statuses) is exactly the
image of the per-item report, so every other item is still submitted,
polled when successful, and reported. -/
theorem per_item_isolation (env : Env) (ws ws2 : List TransferEntry) (k : ℕ)
    (hagree : ∀ j : ℕ, j ≠ k → ws[j]? = ws2[j]?) :
    (∀ j : ℕ, j ≠ k → (itemReport env ws)[j]? = (itemReport env ws2)[j]?)
    ∧ (pipeline env ws).results = (itemReport env ws).map Prod.fst
    ∧ (pipeline env ws).statuses = (itemReport env ws).filterMap Prod.snd
    ∧ (itemReport env ws).length = ws.length := by
  refine ⟨?_, pipeline_results_itemReport env ws, pipeline_statuses_itemReport env ws,
    itemReport_length env ws⟩
  intro j hj
  rw [itemReport_getElem?, itemReport_getElem?, hagree j hj]

theorem per_item_isolation_witness :
    (∀ j : ℕ, j ≠ 1 → ws6[j]? = ws6b[j]?)
    ∧ (itemReport env0 ws6)[0]? = (itemReport env0 ws6b)[0]?
    ∧ (itemReport env0 ws6)[2]? = (itemReport env0 ws6b)[2]? := by
  have hagree : ∀ j : ℕ, j ≠ 1 → ws6[j]? = ws6b[j]? := by
    intro j hj
    cases j with
    | zero => rfl
    | succ j =>
      cases j with
      | zero => exact absurd rfl hj
      | succ j => rfl
  exact ⟨hagree, (per_item_isolation env0 ws6 ws6b 1 hagree).1 0 (by omega),
    (per_item_isolation env0 ws6 ws6b 1 hagree).1 2 (by omega)⟩

/-- Claim C7: in every completion trace of a run, every poll completion
comes after every submission completion (the join_all barrier between
phase 1 and phase 2), and every polled signature was returned by a
successful submission of some batch item, so no poll precedes its own
successful submission. -/
theorem polls_after_all_submissions (env : Env) (ws : List TransferEntry)
    (ord1 ord2 : List ℕ) :
    (∀ (m n : ℕ) (s : String) (b : Bool) (i : ℕ) (r : Except SubmissionError String),
        (runTrace env ws ord1 ord2)[m]? = some (RunEv.polled s b) →
        (runTrace env ws ord1 ord2)[n]? = some (RunEv.submitted i r) → n < m)
    ∧ (∀ (s : String) (b : Bool), RunEv.polled s b ∈ runTrace env ws ord1 ord2 →
        ∃ (i : ℕ) (e : TransferEntry), ws[i]? = some e
          ∧ send_sol env i e = Except.ok s
          ∧ b = check_tx_status (env.status s)) := by
  have hA : ∀ x ∈ ord1.filterMap
      (fun i => ws[i]?.map (fun e => RunEv.submitted i (send_sol env i e))),
      ∃ i r, x = RunEv.submitted i r := by
    intro x hx
    rcases List.mem_filterMap.mp hx with ⟨i, _, he⟩
    rcases Option.map_eq_some'.mp he with ⟨e, _, hfe⟩
    exact ⟨i, send_sol env i e, hfe.symm⟩
  have hB : ∀ x ∈ ord2.filterMap
      (fun j => (pipeline env ws).signatures[j]?.map
        (fun s => RunEv.polled s (check_tx_status (env.status s)))),
      ∃ s b, x = RunEv.polled s b := by
    intro x hx
    rcases List.mem_filterMap.mp hx with ⟨j, _, he⟩
    rcases Option.map_eq_some'.mp he with ⟨sig, _, hfe⟩
    exact ⟨sig, check_tx_status (env.status sig), hfe.symm⟩
  constructor
  · intro m n s b i r hm hn
    unfold runTrace at hm hn
    refine append_all_before _ _
      (fun x => ∃ i2 r2, x = RunEv.submitted i2 r2)
      (fun x => ∃ s2 b2, x = RunEv.polled s2 b2)
      hA hB ?_ m n _ _ hm ⟨s, b, rfl⟩ hn ⟨i, r, rfl⟩
    rintro x ⟨i2, r2, rfl⟩ ⟨s2, b2, heq⟩
    exact RunEv.noConfusion heq
  · intro s b hmem
    unfold runTrace at hmem
    rcases List.mem_append.mp hmem with hmA | hmB
    · rcases List.mem_filterMap.mp hmA with ⟨i, _, he⟩
      rcases Option.map_eq_some'.mp he with ⟨e, _, hfe⟩
      exact RunEv.noConfusion hfe
    · rcases List.mem_filterMap.mp hmB with ⟨j, _, he⟩
      rcases Option.map_eq_some'.mp he with ⟨sig, hsig, hfe⟩
      injection hfe with h1 h2
      rw [h1] at hsig h2
      have hmemsig : s ∈ (pipeline env ws).signatures := List.getElem?_mem hsig
      rw [pipeline_signatures_def] at hmemsig
      have hok : Except.ok s ∈ (pipeline env ws).results :=
        ok_mem_of_mem_filterMap_toOption hmemsig
      rw [pipeline_results_def] at hok
      rcases List.mem_map.mp hok with ⟨⟨i0, e0⟩, hp, hsend⟩
      have hws : ws[i0]? = some e0 := List.mk_mem_enum_iff_getElem?.mp hp
      exact ⟨i0, e0, hws, hsend, h2.symm⟩

theorem polls_after_all_submissions_witness :
    (runTrace env0 ws0 [0, 1] [0])[2]? = some (RunEv.polled "sigA" true)
    ∧ (runTrace env0 ws0 [0, 1] [0])[1]?
        = some (RunEv.submitted 1 (Except.error SubmissionError.credentialUnreadable))
    ∧ 1 < 2 :=
  ⟨by decide, by decide,
    (polls_after_all_submissions env0 ws0 [0, 1] [0]).1 2 1 "sigA" true 1
      (Except.error SubmissionError.credentialUnreadable) (by decide) (by decide)⟩

/-- Claim C8: the Reporter is a pure function of the status list: the
successful count is the number of confirmed entries, the failed count is
the number of unconfirmed entries, the two sum to the list length, and
equal inputs give equal summaries. -/
theorem reporter_pure_counts (l l2 : List Bool) (heq : l = l2) :
    (report l).successful = l.countP (fun b => b)
    ∧ (report l).failed = l.countP (fun b => !b)
    ∧ (report l).successful + (report l).failed = l.length
    ∧ report l = report l2 := by
  subst heq
  refine ⟨report_successful l, report_failed l, ?_, rfl⟩
  rw [report_successful, report_failed, countP_not_bool]
  have hle := @List.countP_le_length Bool (fun b : Bool => b) l
  omega

theorem reporter_pure_counts_witness :
    ([true, false, true] : List Bool) = [true, false, true]
    ∧ (report [true, false, true]).successful = 2
    ∧ (report [true, false, true]).failed = 1 := by
  have h := reporter_pure_counts [true, false, true] [true, false, true] rfl
  refine ⟨rfl, ?_, ?_⟩
  · rw [h.1]
    decide
  · rw [h.2.1]
    decide

/-- Claim C9: a negative amount is clamped: the float-to-u64 cast
saturates at the bounds, so a negative amount converts to 0 lamports and
any value at or above the u64 maximum saturates there; the conversion is
exactly cast-after-rounding; and a submission with a negative amount
proceeds to the remote with 0 lamports instead of being rejected (no
amount check exists anywhere on the path). -/
theorem negative_amounts_clamped_not_rejected :
    (∀ a : ℚ, a < 0 → lamports_of a = 0)
    ∧ (∀ q : ℚ, (2 ^ 64 - 1 : ℚ) ≤ q → f64_as_u64 q = 2 ^ 64 - 1)
    ∧ (∀ a : ℚ, lamports_of a = f64_as_u64 (roundF64 (a * 1000000000)))
    ∧ (∀ (env : Env) (i : ℕ) (e : TransferEntry) (kp : Keypair) (dst : Pubkey)
        (bh : Blockhash),
        e.amount_sol < 0 →
        env.read_keypair e.from_keypair = some kp →
        env.parse_address e.to_address = some dst →
        env.latest_blockhash i = some bh →
        send_sol env i e =
          match env.send_and_confirm i
              { instructions := [{ source := kp.pubkey, dest := dst, lamports := 0 }]
              , payer := some kp.pubkey, signers := [kp.pubkey]
              , recent_blockhash := bh } with
          | none => Except.error SubmissionError.remoteRejected
          | some sig => Except.ok sig) := by
  refine ⟨fun a ha => lamports_of_neg ha, fun q hq => f64_as_u64_saturates hq,
    fun a => rfl, ?_⟩
  intro env i e kp dst bh hneg hkp hdst hbh
  simp only [send_sol, hkp, hdst, hbh, lamports_of_neg hneg]

theorem negative_amounts_witness :
    ((-1 : ℚ) < 0 ∧ lamports_of (-1) = 0)
    ∧ ((2 ^ 64 - 1 : ℚ) ≤ (2 : ℚ) ^ 80 ∧ f64_as_u64 ((2 : ℚ) ^ 80) = 2 ^ 64 - 1)
    ∧ (eNeg.amount_sol < 0 ∧ send_sol env0 1 eNeg = Except.ok ("sigB")) := by
  have hthm := negative_amounts_clamped_not_rejected
  refine ⟨⟨by norm_num, hthm.1 (-1) (by norm_num)⟩,
    ⟨by norm_num, hthm.2.1 ((2 : ℚ) ^ 80) (by norm_num)⟩,
    ⟨by norm_num [eNeg], ?_⟩⟩
  have h4 := hthm.2.2.2 env0 1 eNeg kp1 "dst" "bh" (by norm_num [eNeg])
    rfl rfl rfl
  rw [h4]
  rfl

/-- Claim C10: the pipeline is positionally order preserving: the i-th
submission outcome is the submission of the i-th request, the j-th
confirmation status is the poll of the j-th collected signature, and the
signature list is the subsequence of successful results in input order
(join_all returns results in the order of its input futures). -/
theorem pipeline_preserves_order (env : Env) (ws : List TransferEntry) :
    (∀ i : ℕ, (pipeline env ws).results[i]? = ws[i]?.map (fun e => send_sol env i e))
    ∧ (∀ j : ℕ, (pipeline env ws).statuses[j]? =
        (pipeline env ws).signatures[j]?.map (fun s => check_tx_status (env.status s)))
    ∧ ((pipeline env ws).signatures.map Except.ok).Sublist (pipeline env ws).results := by
  refine ⟨pipeline_results_getElem? env ws, pipeline_statuses_getElem? env ws, ?_⟩
  rw [pipeline_signatures_def]
  exact map_ok_filterMap_sublist _
